import Mathlib

/-!
Shallow embedding of the MAVLink log-transfer tool (`download_logs.py`).

The two functions under scrutiny are `request_log_list` (catalog
enumeration) and `download_log` (chunked fetch with whole-transfer retry
and trim-on-write).  The MAVLink connection is modelled as a script of
receive events: each call to `recv_match(..., timeout=5)` consumes the
next event, where `none` stands for a timeout (no message within the
window) and an exhausted script stands for a silent link (every further
receive times out).
-/

/-- A `LOG_DATA` response as the script delivers it: the log id it refers
to, the offset field, the declared count of valid bytes (`msg.length` in
the source), and the raw data array (`msg.data`). -/
structure LogData where
  id : Nat
  ofs : Nat
  length : Nat
  data : List Nat
deriving DecidableEq

/-- One receive event for the fetch loop: `none` is a timed-out
`recv_match`, `some m` is an arriving `LOG_DATA` message. -/
abbrev RecvEvent := Option LogData

/-- Result of one run of the inner `while offset < log_size` loop of
`download_log`: final offset, accumulated buffer, whether the loop ended
on a receive timeout, the `LOG_REQUEST_DATA` requests sent (as
`(log_id, offset, chunk_size)` triples, in order), and the unconsumed
events. -/
structure ChunkOut where
  offset : Nat
  log_data : List Nat
  timedOut : Bool
  reqs : List (Nat × Nat × Nat)
  rest : List RecvEvent
deriving DecidableEq

/-- The inner chunk loop of `download_log` (`while offset < log_size`):
send `log_request_data_send(log_id, offset, chunk_size)`, receive; a
timeout breaks out of the loop, a foreign-id message is skipped
(`continue`), a correct-id message appends `msg.data[:msg.length]` and
advances `offset` by `msg.length`. -/
def chunkLoop (log_id log_size chunk_size : Nat) :
    Nat → List Nat → List RecvEvent → ChunkOut
  | offset, log_data, [] =>
    if log_size ≤ offset then ⟨offset, log_data, false, [], []⟩
    else ⟨offset, log_data, true, [(log_id, offset, chunk_size)], []⟩
  | offset, log_data, ev :: rest =>
    if log_size ≤ offset then ⟨offset, log_data, false, [], ev :: rest⟩
    else
      match ev with
      | none => ⟨offset, log_data, true, [(log_id, offset, chunk_size)], rest⟩
      | some m =>
        if m.id ≠ log_id then
          let r := chunkLoop log_id log_size chunk_size offset log_data rest
          ⟨r.offset, r.log_data, r.timedOut, (log_id, offset, chunk_size) :: r.reqs, r.rest⟩
        else
          let r := chunkLoop log_id log_size chunk_size (offset + m.length)
            (log_data ++ m.data.take m.length) rest
          ⟨r.offset, r.log_data, r.timedOut, (log_id, offset, chunk_size) :: r.reqs, r.rest⟩

/-- Result of the `for attempt in range(retries)` loop of `download_log`:
final offset and buffer (after any end-of-attempt reset), all requests
sent, the number of attempts that ran, and the unconsumed events. -/
structure LoopOut where
  offset : Nat
  log_data : List Nat
  reqs : List (Nat × Nat × Nat)
  attemptsUsed : Nat
  rest : List RecvEvent
deriving DecidableEq

/-- The `for attempt in range(retries)` loop of `download_log`: run the
chunk loop; `break` when `offset >= log_size`, otherwise reset
`offset = 0` and `log_data = bytearray()` and move to the next attempt. -/
def attemptLoop (log_id log_size chunk_size : Nat) :
    Nat → Nat → List Nat → List RecvEvent → LoopOut
  | 0, offset, log_data, evs => ⟨offset, log_data, [], 0, evs⟩
  | remaining + 1, offset, log_data, evs =>
    let c := chunkLoop log_id log_size chunk_size offset log_data evs
    if log_size ≤ c.offset then ⟨c.offset, c.log_data, c.reqs, 1, c.rest⟩
    else
      let r := attemptLoop log_id log_size chunk_size remaining 0 [] c.rest
      ⟨r.offset, r.log_data, c.reqs ++ r.reqs, r.attemptsUsed + 1, r.rest⟩

/-- Observable outcome of `download_log`: the persisted file contents
(`none` when the function returns without writing), the number of
attempts run, all requests sent, and the final offset. -/
structure DownloadOut where
  file : Option (List Nat)
  attemptsUsed : Nat
  reqs : List (Nat × Nat × Nat)
  finalOffset : Nat
deriving DecidableEq

/-- `download_log(connection, log_id, log_size, retries=...)` from
`download_logs.py`: `chunk_size = 90`, start at `offset = 0` with an
empty buffer, run the retry loop; if `offset < log_size` afterwards,
return without writing, otherwise write `log_data[:log_size]` (trim to
exact size). -/
def download_log (log_id log_size retries : Nat) (evs : List RecvEvent) :
    DownloadOut :=
  let chunk_size := 90
  let out := attemptLoop log_id log_size chunk_size retries 0 [] evs
  if out.offset < log_size then ⟨none, out.attemptsUsed, out.reqs, out.offset⟩
  else ⟨some (out.log_data.take log_size), out.attemptsUsed, out.reqs, out.offset⟩

/-- A `LOG_ENTRY` message as received during enumeration. -/
structure LogEntryMsg where
  id : Nat
  num_logs : Nat
  last_log_num : Nat
  time_utc : Nat
  size : Nat
deriving DecidableEq

/-- One catalog record as `request_log_list` collects it
(`{'id': ..., 'size': ..., 'time_utc': ...}`). -/
structure LogRec where
  id : Nat
  size : Nat
  time_utc : Nat
deriving DecidableEq

/-- Why the enumeration loop stopped: a timed-out receive ("Assuming all
logs received") or an initial entry with `id == 0 and num_logs == 0`
("No logs available").  The source has no other exit. -/
inductive ListEnd
  | timeout
  | noLogs
deriving DecidableEq

/-- Observable outcome of `request_log_list`: the returned records, how
many `recv_match` calls ran, and which branch ended the loop. -/
structure ListOut where
  logs : List LogRec
  recvCount : Nat
  cause : ListEnd
deriving DecidableEq

/-- The `while True` collection loop of `request_log_list`: receive with
timeout; `None` breaks, an entry with `id == 0 and num_logs == 0`
breaks, any other entry is appended and the loop repeats. -/
def listLoop : List (Option LogEntryMsg) → ListOut
  | [] => ⟨[], 1, .timeout⟩
  | none :: _ => ⟨[], 1, .timeout⟩
  | some m :: rest =>
    if m.id = 0 ∧ m.num_logs = 0 then ⟨[], 1, .noLogs⟩
    else
      let r := listLoop rest
      ⟨⟨m.id, m.size, m.time_utc⟩ :: r.logs, r.recvCount + 1, r.cause⟩

/-- Stable insertion of a record into a list kept in descending id
order; a record arriving later is placed after records of equal id, as
Python's stable `sorted(..., reverse=True)` does. -/
def insertDescById (x : LogRec) : List LogRec → List LogRec
  | [] => [x]
  | y :: ys => if y.id ≤ x.id then x :: y :: ys else y :: insertDescById x ys

/-- Stable sort by id, descending: the model of
`sorted(logs, key=lambda x: x['id'], reverse=True)`. -/
def sortDescById : List LogRec → List LogRec
  | [] => []
  | x :: xs => insertDescById x (sortDescById xs)

/-- `request_log_list(connection)` from `download_logs.py`: collect the
streamed `LOG_ENTRY` messages, then return them sorted by id, newest
first. -/
def request_log_list (evs : List (Option LogEntryMsg)) : ListOut :=
  let r := listLoop evs
  ⟨sortDescById r.logs, r.recvCount, r.cause⟩

/-- Well-formedness of a receive script: every correct-id `LOG_DATA`
message actually carries at least its declared count of bytes in its
data array (in MAVLink the data field is a fixed 90-byte array and the
count of valid bytes is at most 90). -/
def wfEvents (log_id : Nat) (evs : List RecvEvent) : Bool :=
  evs.all fun ev =>
    match ev with
    | none => true
    | some m => m.id != log_id || decide (m.length ≤ m.data.length)

/-- A device-conformance bound on a receive script, relative to the
running offset: each correct-id response declares at most the bytes
still missing (`log_size - offset` at the time it is consumed). -/
def capsOk (log_id log_size : Nat) : Nat → List RecvEvent → Bool
  | _, [] => true
  | o, none :: rest => capsOk log_id log_size o rest
  | o, some m :: rest =>
    if m.id = log_id then
      decide (m.length ≤ log_size - o) && capsOk log_id log_size (o + m.length) rest
    else capsOk log_id log_size o rest

theorem chunkLoop_offset_le (log_id log_size chunk_size offset : Nat)
    (log_data : List Nat) (evs : List RecvEvent) :
    offset ≤ (chunkLoop log_id log_size chunk_size offset log_data evs).offset := by
  induction evs generalizing offset log_data with
  | nil =>
    simp only [chunkLoop]
    split <;> simp
  | cons ev rest ih =>
    simp only [chunkLoop]
    split
    · simp
    · cases ev with
      | none => simp
      | some m =>
        by_cases hid : m.id ≠ log_id
        · simpa [hid] using ih offset log_data
        · simp only [hid, if_neg, ite_false, if_false]
          calc offset ≤ offset + m.length := Nat.le_add_right _ _
            _ ≤ _ := ih _ _

theorem chunkLoop_offset_bound (log_id log_size chunk_size offset : Nat)
    (log_data : List Nat) (evs : List RecvEvent)
    (hcap : capsOk log_id log_size offset evs = true)
    (hoff : offset ≤ log_size) :
    (chunkLoop log_id log_size chunk_size offset log_data evs).offset ≤ log_size := by
  induction evs generalizing offset log_data with
  | nil =>
    simp only [chunkLoop]
    split <;> simpa
  | cons ev rest ih =>
    simp only [chunkLoop]
    split
    · simpa
    · cases ev with
      | none => simpa
      | some m =>
        by_cases hid : m.id ≠ log_id
        · simp only [capsOk, if_neg (by simpa using hid)] at hcap
          simpa [hid] using ih offset log_data hcap hoff
        · push_neg at hid
          simp only [capsOk, if_pos hid, Bool.and_eq_true, decide_eq_true_eq] at hcap
          have hlt : offset + m.length ≤ log_size := by omega
          simp only [hid, ne_eq, not_true_eq_false, ite_false, if_false]
          simpa using ih (offset + m.length) (log_data ++ m.data.take m.length) hcap.2 hlt

theorem chunkLoop_len (log_id log_size chunk_size offset : Nat)
    (log_data : List Nat) (evs : List RecvEvent)
    (hwf : wfEvents log_id evs = true)
    (hlen : log_data.length = offset) :
    (chunkLoop log_id log_size chunk_size offset log_data evs).log_data.length =
        (chunkLoop log_id log_size chunk_size offset log_data evs).offset ∧
      wfEvents log_id (chunkLoop log_id log_size chunk_size offset log_data evs).rest =
        true := by
  induction evs generalizing offset log_data with
  | nil =>
    simp only [chunkLoop]
    split <;> simp [hlen, wfEvents]
  | cons ev rest ih =>
    have hwf' : wfEvents log_id rest = true := by
      simp only [wfEvents, List.all_cons, Bool.and_eq_true] at hwf
      exact hwf.2
    simp only [chunkLoop]
    split
    · exact ⟨hlen, hwf⟩
    · cases ev with
      | none => exact ⟨hlen, hwf'⟩
      | some m =>
        by_cases hid : m.id ≠ log_id
        · simpa [hid] using ih offset log_data hwf' hlen
        · push_neg at hid
          have hdat : m.length ≤ m.data.length := by
            simp only [wfEvents, List.all_cons, Bool.and_eq_true] at hwf
            have := hwf.1
            simp only [bne_iff_ne, ne_eq, Bool.or_eq_true, decide_eq_true_eq] at this
            rcases this with h | h
            · exact absurd hid h
            · exact h
          have hlen' : (log_data ++ m.data.take m.length).length = offset + m.length := by
            simp [hlen, List.length_take, Nat.min_eq_left hdat]
          simp only [hid, ne_eq, not_true_eq_false, ite_false, if_false]
          simpa using ih (offset + m.length) (log_data ++ m.data.take m.length) hwf' hlen'

theorem attemptLoop_len (log_id log_size chunk_size remaining offset : Nat)
    (log_data : List Nat) (evs : List RecvEvent)
    (hwf : wfEvents log_id evs = true)
    (hlen : log_data.length = offset) :
    (attemptLoop log_id log_size chunk_size remaining offset log_data evs).log_data.length =
      (attemptLoop log_id log_size chunk_size remaining offset log_data evs).offset := by
  induction remaining generalizing offset log_data evs with
  | zero => simpa [attemptLoop]
  | succ n ih =>
    have h := chunkLoop_len log_id log_size chunk_size offset log_data evs hwf hlen
    simp only [attemptLoop]
    split
    · exact h.1
    · simpa using ih 0 [] _ h.2 rfl

theorem chunkLoop_guard (log_id log_size chunk_size offset : Nat)
    (log_data : List Nat) (evs : List RecvEvent) (h : log_size ≤ offset) :
    chunkLoop log_id log_size chunk_size offset log_data evs =
      ⟨offset, log_data, false, [], evs⟩ := by
  cases evs <;> simp [chunkLoop, h]

theorem chunkLoop_timeout_step (log_id log_size chunk_size offset : Nat)
    (log_data : List Nat) (evs : List RecvEvent) (ho : offset < log_size) :
    chunkLoop log_id log_size chunk_size offset log_data (none :: evs) =
      ⟨offset, log_data, true, [(log_id, offset, chunk_size)], evs⟩ := by
  simp [chunkLoop, Nat.not_le.mpr ho]

theorem chunkLoop_foreign_step (log_id log_size chunk_size offset : Nat)
    (log_data : List Nat) (m : LogData) (evs : List RecvEvent)
    (hm : m.id ≠ log_id) (ho : offset < log_size) :
    chunkLoop log_id log_size chunk_size offset log_data (some m :: evs) =
      ⟨(chunkLoop log_id log_size chunk_size offset log_data evs).offset,
        (chunkLoop log_id log_size chunk_size offset log_data evs).log_data,
        (chunkLoop log_id log_size chunk_size offset log_data evs).timedOut,
        (log_id, offset, chunk_size) ::
          (chunkLoop log_id log_size chunk_size offset log_data evs).reqs,
        (chunkLoop log_id log_size chunk_size offset log_data evs).rest⟩ := by
  conv_lhs => rw [chunkLoop]
  simp [Nat.not_le.mpr ho, hm]

theorem chunkLoop_data_step (log_id log_size chunk_size offset : Nat)
    (log_data : List Nat) (m : LogData) (evs : List RecvEvent)
    (hm : m.id = log_id) (ho : offset < log_size) :
    chunkLoop log_id log_size chunk_size offset log_data (some m :: evs) =
      ⟨(chunkLoop log_id log_size chunk_size (offset + m.length)
          (log_data ++ m.data.take m.length) evs).offset,
        (chunkLoop log_id log_size chunk_size (offset + m.length)
          (log_data ++ m.data.take m.length) evs).log_data,
        (chunkLoop log_id log_size chunk_size (offset + m.length)
          (log_data ++ m.data.take m.length) evs).timedOut,
        (log_id, offset, chunk_size) ::
          (chunkLoop log_id log_size chunk_size (offset + m.length)
            (log_data ++ m.data.take m.length) evs).reqs,
        (chunkLoop log_id log_size chunk_size (offset + m.length)
          (log_data ++ m.data.take m.length) evs).rest⟩ := by
  conv_lhs => rw [chunkLoop]
  simp [Nat.not_le.mpr ho, hm]

theorem chunkLoop_allNone (log_id log_size chunk_size : Nat) (evs : List RecvEvent)
    (hn : evs.all Option.isNone = true) (hs : 0 < log_size) :
    chunkLoop log_id log_size chunk_size 0 [] evs =
      ⟨0, [], true, [(log_id, 0, chunk_size)], evs.tail⟩ := by
  cases evs with
  | nil => simp [chunkLoop, Nat.not_le.mpr hs]
  | cons ev rest =>
    simp only [List.all_cons, Bool.and_eq_true, Option.isNone_iff_eq_none] at hn
    cases ev with
    | none => simp [chunkLoop, Nat.not_le.mpr hs]
    | some m => simp at hn

theorem attemptLoop_allNone (log_id log_size chunk_size k : Nat) (evs : List RecvEvent)
    (hn : evs.all Option.isNone = true) (hs : 0 < log_size) :
    (attemptLoop log_id log_size chunk_size k 0 [] evs).offset = 0 ∧
      (attemptLoop log_id log_size chunk_size k 0 [] evs).log_data = [] ∧
      (attemptLoop log_id log_size chunk_size k 0 [] evs).reqs =
        List.replicate k (log_id, 0, chunk_size) ∧
      (attemptLoop log_id log_size chunk_size k 0 [] evs).attemptsUsed = k := by
  induction k generalizing evs with
  | zero => simp [attemptLoop]
  | succ n ih =>
    have hc := chunkLoop_allNone log_id log_size chunk_size evs hn hs
    have htail : evs.tail.all Option.isNone = true := by
      cases evs with
      | nil => simp
      | cons e r =>
        simp only [List.all_cons, Bool.and_eq_true] at hn
        simpa using hn.2
    obtain ⟨h1, h2, h3, h4⟩ := ih evs.tail htail
    simp only [attemptLoop, hc]
    rw [if_neg (by omega)]
    exact ⟨h1, h2, by simp [h3, List.replicate_succ], by simp [h4]⟩

/-- Claim C2: for every `k ≥ 1`, if every chunk round times out,
`download_log` with `retries = k` runs exactly `k` attempts, each
starting from offset `0` with a fresh empty buffer (every request it
sends is for offset `0`), ends exhausted with final offset `0`, and
writes no file. -/
theorem c2_all_timeouts_exhausted (log_id log_size k : Nat) (evs : List RecvEvent)
    (_hk : 1 ≤ k) (hs : 0 < log_size) (hn : evs.all Option.isNone = true) :
    download_log log_id log_size k evs =
      ⟨none, k, List.replicate k (log_id, 0, 90), 0⟩ := by
  obtain ⟨h1, h2, h3, h4⟩ := attemptLoop_allNone log_id log_size 90 k evs hn hs
  simp only [download_log]
  rw [if_pos (by omega)]
  rw [h1, h3, h4]

/-- Witness for C2: the spec scenario, log id 9, 500 bytes, 3 retries,
a silent link: 3 attempts, 3 requests at offset 0, no file. -/
theorem c2_all_timeouts_exhausted_witness :
    download_log 9 500 3 [] =
      ⟨none, 3, List.replicate 3 (9, 0, 90), 0⟩ :=
  c2_all_timeouts_exhausted 9 500 3 [] (by decide) (by decide) (by decide)

/-- Claim C1: whenever `download_log` writes a file (the retry loop
ended with `offset >= log_size`), the written bytes
`log_data[:log_size]` have length exactly `log_size`, for every
well-formed receive script. -/
theorem c1_success_exact_size (log_id log_size retries : Nat) (evs : List RecvEvent)
    (f : List Nat)
    (hwf : wfEvents log_id evs = true)
    (hf : (download_log log_id log_size retries evs).file = some f) :
    f.length = log_size := by
  have hlen := attemptLoop_len log_id log_size 90 retries 0 [] evs hwf rfl
  simp only [download_log] at hf
  split at hf
  · simp at hf
  · rename_i h
    have hf' := Option.some.inj hf
    subst hf'
    rw [List.length_take]
    omega

/-- Witness for C1: a two-byte log delivered in one chunk is written
with length exactly `2`. -/
theorem c1_success_exact_size_witness :
    ([7, 8] : List Nat).length = 2 :=
  c1_success_exact_size 1 2 1 [some ⟨1, 0, 2, [7, 8]⟩] [7, 8] (by decide) (by decide)

/-- Claim C9: within one attempt the accumulated buffer's length equals
the current offset, at every point of the chunk loop (stated for every
reachable intermediate state and every well-formed receive script). -/
theorem c9_buffer_length_eq_offset (log_id log_size chunk_size offset : Nat)
    (log_data : List Nat) (evs : List RecvEvent)
    (hwf : wfEvents log_id evs = true)
    (hlen : log_data.length = offset) :
    (chunkLoop log_id log_size chunk_size offset log_data evs).log_data.length =
      (chunkLoop log_id log_size chunk_size offset log_data evs).offset :=
  (chunkLoop_len log_id log_size chunk_size offset log_data evs hwf hlen).1

/-- Witness for C9: a concrete run whose buffer length matches the final
offset. -/
theorem c9_buffer_length_eq_offset_witness :
    (chunkLoop 1 3 90 0 [] [some ⟨1, 0, 2, [7, 8]⟩, none]).log_data.length =
      (chunkLoop 1 3 90 0 [] [some ⟨1, 0, 2, [7, 8]⟩, none]).offset :=
  c9_buffer_length_eq_offset 1 3 90 0 [] [some ⟨1, 0, 2, [7, 8]⟩, none]
    (by decide) (by decide)

/-- Counterexample to claim C5: the offset is not bounded by the
declared size for every sequence of data-responses.  A single correct-id
response declaring 90 bytes against a 10-byte log drives the offset to
90, and `download_log` still treats the attempt as a success (final
offset 90 after the trim masks the overshoot). -/
theorem c5_offset_bound_counterexample :
    10 < (chunkLoop 1 10 90 0 [] [some ⟨1, 0, 90, List.replicate 90 0⟩]).offset ∧
      10 < (download_log 1 10 1 [some ⟨1, 0, 90, List.replicate 90 0⟩]).finalOffset := by
  constructor <;> decide

/-- Claim C5 (amended): within one attempt the offset is monotonically
non-decreasing, and it stays bounded by the declared size provided every
correct-id response declares at most the bytes still missing. -/
theorem c5_offset_monotone_bounded (log_id log_size chunk_size offset : Nat)
    (log_data : List Nat) (evs : List RecvEvent) :
    offset ≤ (chunkLoop log_id log_size chunk_size offset log_data evs).offset ∧
      (capsOk log_id log_size offset evs = true → offset ≤ log_size →
        (chunkLoop log_id log_size chunk_size offset log_data evs).offset ≤ log_size) :=
  ⟨chunkLoop_offset_le log_id log_size chunk_size offset log_data evs,
    fun hcap hoff =>
      chunkLoop_offset_bound log_id log_size chunk_size offset log_data evs hcap hoff⟩

/-- Witness for C5 (amended): a conforming two-byte delivery keeps the
offset within the declared size. -/
theorem c5_offset_monotone_bounded_witness :
    (chunkLoop 1 2 90 0 [] [some ⟨1, 0, 2, [5, 5]⟩]).offset ≤ 2 :=
  (c5_offset_monotone_bounded 1 2 90 0 [] [some ⟨1, 0, 2, [5, 5]⟩]).2
    (by decide) (by decide)

theorem mem_insertDescById (x z : LogRec) (l : List LogRec) :
    z ∈ insertDescById x l ↔ z = x ∨ z ∈ l := by
  induction l with
  | nil => simp [insertDescById]
  | cons y ys ih =>
    simp only [insertDescById]
    split
    · simp [List.mem_cons]
    · simp [List.mem_cons, ih]
      tauto

theorem pairwise_insertDescById (x : LogRec) (l : List LogRec)
    (h : l.Pairwise (fun a b => b.id ≤ a.id)) :
    (insertDescById x l).Pairwise (fun a b => b.id ≤ a.id) := by
  induction l with
  | nil => simp [insertDescById]
  | cons y ys ih =>
    rw [List.pairwise_cons] at h
    simp only [insertDescById]
    split
    · rename_i hyx
      rw [List.pairwise_cons]
      refine ⟨?_, List.pairwise_cons.mpr h⟩
      intro z hz
      rcases List.mem_cons.mp hz with rfl | hz
      · exact hyx
      · exact le_trans (h.1 z hz) hyx
    · rename_i hyx
      rw [List.pairwise_cons]
      refine ⟨?_, ih h.2⟩
      intro z hz
      rcases (mem_insertDescById x z ys).mp hz with rfl | hz
      · omega
      · exact h.1 z hz

theorem sortDescById_pairwise (l : List LogRec) :
    (sortDescById l).Pairwise (fun a b => b.id ≤ a.id) := by
  induction l with
  | nil => simp [sortDescById]
  | cons x xs ih => exact pairwise_insertDescById x _ ih

/-- Counterexample to claim C3: for catalog entries arriving with ids
`[3, 1, 2]`, the enumerator's output is not the arrival order
`[3, 1, 2]` — `request_log_list` itself sorts by id descending before
returning. -/
theorem c3_arrival_order_counterexample :
    (request_log_list [some ⟨3, 3, 2, 100, 30⟩, some ⟨1, 3, 2, 50, 10⟩,
        some ⟨2, 3, 2, 70, 20⟩]).logs.map LogRec.id ≠ [3, 1, 2] := by
  decide

/-- Claim C3 (amended): `request_log_list` returns the collected catalog
entries already sorted by id descending (newest first); no caller-side
resort is needed.  For entries arriving with ids `[3, 1, 2]` the output
is `[3, 2, 1]`. -/
theorem c3_sorted_descending :
    (∀ evs, ((request_log_list evs).logs).Pairwise (fun a b => b.id ≤ a.id)) ∧
      (request_log_list [some ⟨3, 3, 2, 100, 30⟩, some ⟨1, 3, 2, 50, 10⟩,
          some ⟨2, 3, 2, 70, 20⟩]).logs.map LogRec.id = [3, 2, 1] := by
  constructor
  · intro evs
    simpa [request_log_list] using sortDescById_pairwise (listLoop evs).logs
  · decide

/-- A receive script for enumeration whose every event is a real
catalog entry and never the `id == 0 and num_logs == 0` sentinel. -/
def goodEntries (evs : List (Option LogEntryMsg)) : Bool :=
  evs.all fun ev =>
    match ev with
    | none => false
    | some m => !(m.id == 0 && m.num_logs == 0)

/-- Counterexample to claim C4: after receiving an entry that reports
itself final (`id = 2`, `last_log_num = 2`), the enumerator does not
stop — it performs one more receive, which times out, and the loop ends
through the timeout branch. -/
theorem c4_final_flag_counterexample :
    (request_log_list [some ⟨2, 3, 2, 0, 10⟩]).recvCount = 2 ∧
      (request_log_list [some ⟨2, 3, 2, 0, 10⟩]).cause = ListEnd.timeout := by
  constructor <;> decide

/-- Claim C4 (amended): the enumeration loop never inspects the
final-entry flag; whenever the script consists of ordinary catalog
entries (final-flagged or not), the loop consumes them all plus one
further receive, and terminates only through the timeout branch. -/
theorem c4_timeout_only_termination (evs : List (Option LogEntryMsg))
    (h : goodEntries evs = true) :
    (request_log_list evs).cause = ListEnd.timeout ∧
      (request_log_list evs).recvCount = evs.length + 1 := by
  suffices h' : (listLoop evs).cause = ListEnd.timeout ∧
      (listLoop evs).recvCount = evs.length + 1 by
    simpa [request_log_list] using h'
  induction evs with
  | nil => simp [listLoop]
  | cons ev rest ih =>
    simp only [goodEntries, List.all_cons, Bool.and_eq_true] at h
    cases ev with
    | none => simp at h
    | some m =>
      have hm : ¬(m.id = 0 ∧ m.num_logs = 0) := by
        have h1 := h.1
        simp only [Bool.not_eq_true', Bool.and_eq_false_iff, beq_eq_false_iff_ne,
          ne_eq] at h1
        tauto
      obtain ⟨hc, hn⟩ := ih (by simpa [goodEntries] using h.2)
      simp [listLoop, hm, hc, hn]

/-- Witness for C4 (amended): a single final-flagged entry and then
silence gives two receives and a timeout exit. -/
theorem c4_timeout_only_termination_witness :
    (request_log_list [some ⟨2, 3, 2, 0, 10⟩]).cause = ListEnd.timeout ∧
      (request_log_list [some ⟨2, 3, 2, 0, 10⟩]).recvCount =
        ([some ⟨2, 3, 2, 0, 10⟩] : List (Option LogEntryMsg)).length + 1 :=
  c4_timeout_only_termination [some ⟨2, 3, 2, 0, 10⟩] (by decide)

theorem chunkLoop_insert_foreign (log_id log_size chunk_size : Nat) (m : LogData)
    (hm : m.id ≠ log_id) (ea : List RecvEvent) :
    ∀ (offset : Nat) (log_data : List Nat) (eb : List RecvEvent),
      (chunkLoop log_id log_size chunk_size offset log_data (ea ++ some m :: eb)).offset =
          (chunkLoop log_id log_size chunk_size offset log_data (ea ++ eb)).offset ∧
        (chunkLoop log_id log_size chunk_size offset log_data (ea ++ some m :: eb)).log_data =
          (chunkLoop log_id log_size chunk_size offset log_data (ea ++ eb)).log_data ∧
        ((∃ t,
            (chunkLoop log_id log_size chunk_size offset log_data
                (ea ++ some m :: eb)).rest = t ++ some m :: eb ∧
              (chunkLoop log_id log_size chunk_size offset log_data (ea ++ eb)).rest =
                t ++ eb) ∨
          (chunkLoop log_id log_size chunk_size offset log_data (ea ++ some m :: eb)).rest =
            (chunkLoop log_id log_size chunk_size offset log_data (ea ++ eb)).rest) := by
  induction ea with
  | nil =>
    intro offset log_data eb
    simp only [List.nil_append]
    by_cases h : log_size ≤ offset
    · rw [chunkLoop_guard log_id log_size chunk_size offset log_data _ h,
        chunkLoop_guard log_id log_size chunk_size offset log_data _ h]
      exact ⟨rfl, rfl, Or.inl ⟨[], rfl, rfl⟩⟩
    · rw [chunkLoop_foreign_step log_id log_size chunk_size offset log_data m eb hm
        (by omega)]
      exact ⟨rfl, rfl, Or.inr rfl⟩
  | cons ev t ih =>
    intro offset log_data eb
    simp only [List.cons_append]
    by_cases h : log_size ≤ offset
    · rw [chunkLoop_guard log_id log_size chunk_size offset log_data _ h,
        chunkLoop_guard log_id log_size chunk_size offset log_data _ h]
      exact ⟨rfl, rfl, Or.inl ⟨ev :: t, by simp, by simp⟩⟩
    · cases ev with
      | none =>
        rw [chunkLoop_timeout_step log_id log_size chunk_size offset log_data _
            (by omega),
          chunkLoop_timeout_step log_id log_size chunk_size offset log_data _
            (by omega)]
        exact ⟨rfl, rfl, Or.inl ⟨t, rfl, rfl⟩⟩
      | some m2 =>
        by_cases hid : m2.id = log_id
        · rw [chunkLoop_data_step log_id log_size chunk_size offset log_data m2 _ hid
              (by omega),
            chunkLoop_data_step log_id log_size chunk_size offset log_data m2 _ hid
              (by omega)]
          exact ih (offset + m2.length) (log_data ++ m2.data.take m2.length) eb
        · rw [chunkLoop_foreign_step log_id log_size chunk_size offset log_data m2 _ hid
              (by omega),
            chunkLoop_foreign_step log_id log_size chunk_size offset log_data m2 _ hid
              (by omega)]
          exact ih offset log_data eb

theorem attemptLoop_insert_foreign (log_id log_size chunk_size : Nat) (m : LogData)
    (hm : m.id ≠ log_id) :
    ∀ (remaining : Nat) (ea : List RecvEvent) (offset : Nat) (log_data : List Nat)
      (eb : List RecvEvent),
      (attemptLoop log_id log_size chunk_size remaining offset log_data
          (ea ++ some m :: eb)).offset =
          (attemptLoop log_id log_size chunk_size remaining offset log_data
            (ea ++ eb)).offset ∧
        (attemptLoop log_id log_size chunk_size remaining offset log_data
            (ea ++ some m :: eb)).log_data =
          (attemptLoop log_id log_size chunk_size remaining offset log_data
            (ea ++ eb)).log_data ∧
        (attemptLoop log_id log_size chunk_size remaining offset log_data
            (ea ++ some m :: eb)).attemptsUsed =
          (attemptLoop log_id log_size chunk_size remaining offset log_data
            (ea ++ eb)).attemptsUsed := by
  intro remaining
  induction remaining with
  | zero =>
    intro ea offset log_data eb
    simp [attemptLoop]
  | succ n ih =>
    intro ea offset log_data eb
    obtain ⟨ho, hd, hr⟩ := chunkLoop_insert_foreign log_id log_size chunk_size m hm ea
      offset log_data eb
    simp only [attemptLoop]
    by_cases hg : log_size ≤
        (chunkLoop log_id log_size chunk_size offset log_data (ea ++ some m :: eb)).offset
    · rw [if_pos hg, if_pos (ho ▸ hg)]
      exact ⟨ho, hd, rfl⟩
    · rw [if_neg hg, if_neg (ho ▸ hg)]
      rcases hr with ⟨t, h1, h2⟩ | heq
      · rw [h1, h2]
        obtain ⟨io, id', ia⟩ := ih t 0 [] eb
        exact ⟨io, id', by simp [ia]⟩
      · rw [heq]
        exact ⟨rfl, rfl, rfl⟩

/-- Claim C6: a data-response carrying a foreign log id, inserted at any
position of the receive script, changes neither the attempt's offset nor
its buffer, nor the file `download_log` finally persists. -/
theorem c6_foreign_id_no_effect (log_id log_size chunk_size retries offset : Nat)
    (log_data : List Nat) (m : LogData) (ea eb : List RecvEvent)
    (hm : m.id ≠ log_id) :
    ((chunkLoop log_id log_size chunk_size offset log_data (ea ++ some m :: eb)).offset =
        (chunkLoop log_id log_size chunk_size offset log_data (ea ++ eb)).offset ∧
      (chunkLoop log_id log_size chunk_size offset log_data (ea ++ some m :: eb)).log_data =
        (chunkLoop log_id log_size chunk_size offset log_data (ea ++ eb)).log_data) ∧
    ((download_log log_id log_size retries (ea ++ some m :: eb)).file =
        (download_log log_id log_size retries (ea ++ eb)).file ∧
      (download_log log_id log_size retries (ea ++ some m :: eb)).finalOffset =
        (download_log log_id log_size retries (ea ++ eb)).finalOffset) := by
  obtain ⟨ho, hd, _⟩ := chunkLoop_insert_foreign log_id log_size chunk_size m hm ea
    offset log_data eb
  obtain ⟨ao, ad, _⟩ := attemptLoop_insert_foreign log_id log_size 90 m hm retries ea
    0 [] eb
  refine ⟨⟨ho, hd⟩, ?_, ?_⟩
  · simp only [download_log]
    by_cases hg :
        (attemptLoop log_id log_size 90 retries 0 [] (ea ++ some m :: eb)).offset <
          log_size
    · rw [if_pos hg, if_pos (ao ▸ hg)]
    · rw [if_neg hg, if_neg (ao ▸ hg), ad]
  · simp only [download_log]
    by_cases hg :
        (attemptLoop log_id log_size 90 retries 0 [] (ea ++ some m :: eb)).offset <
          log_size
    · rw [if_pos hg, if_pos (ao ▸ hg)]
      exact ao
    · rw [if_neg hg, if_neg (ao ▸ hg)]
      exact ao

/-- Witness for C6: inserting a foreign-id response in the middle of a
lossless two-chunk delivery leaves the persisted file unchanged. -/
theorem c6_foreign_id_no_effect_witness :
    (chunkLoop 1 4 90 0 [] ([some ⟨1, 0, 2, [7, 8]⟩] ++
        some ⟨9, 0, 2, [0, 0]⟩ :: [some ⟨1, 2, 2, [5, 6]⟩])).log_data =
      (chunkLoop 1 4 90 0 [] ([some ⟨1, 0, 2, [7, 8]⟩] ++
        [some ⟨1, 2, 2, [5, 6]⟩])).log_data :=
  (c6_foreign_id_no_effect 1 4 90 1 0 [] ⟨9, 0, 2, [0, 0]⟩
    [some ⟨1, 0, 2, [7, 8]⟩] [some ⟨1, 2, 2, [5, 6]⟩] (by decide)).1.2

theorem chunkLoop_reqs_head (log_id log_size chunk_size offset : Nat)
    (log_data : List Nat) (evs : List RecvEvent) (ho : offset < log_size) :
    ∃ t, (chunkLoop log_id log_size chunk_size offset log_data evs).reqs =
      (log_id, offset, chunk_size) :: t := by
  cases evs with
  | nil => exact ⟨[], by simp [chunkLoop, Nat.not_le.mpr ho]⟩
  | cons ev rest =>
    cases ev with
    | none =>
      exact ⟨[], by rw [chunkLoop_timeout_step log_id log_size chunk_size offset
        log_data rest ho]⟩
    | some m2 =>
      by_cases hid : m2.id = log_id
      · exact ⟨_, by rw [chunkLoop_data_step log_id log_size chunk_size offset
          log_data m2 rest hid ho]⟩
      · exact ⟨_, by rw [chunkLoop_foreign_step log_id log_size chunk_size offset
          log_data m2 rest hid ho]⟩

/-- Claim C10: when a foreign-id response is discarded, the loop head is
re-entered and a duplicate request for the unchanged
`(log_id, offset, chunk_size)` goes out before the next receive: the run
with the foreign response sends exactly one extra copy of the very
request the run without it sends next, while offset and buffer are
unaffected. -/
theorem c10_foreign_id_duplicate_request (log_id log_size chunk_size offset : Nat)
    (log_data : List Nat) (m : LogData) (evs : List RecvEvent)
    (hm : m.id ≠ log_id) (ho : offset < log_size) :
    (chunkLoop log_id log_size chunk_size offset log_data (some m :: evs)).reqs =
        (log_id, offset, chunk_size) ::
          (chunkLoop log_id log_size chunk_size offset log_data evs).reqs ∧
      (∃ t, (chunkLoop log_id log_size chunk_size offset log_data evs).reqs =
        (log_id, offset, chunk_size) :: t) ∧
      (chunkLoop log_id log_size chunk_size offset log_data (some m :: evs)).offset =
        (chunkLoop log_id log_size chunk_size offset log_data evs).offset ∧
      (chunkLoop log_id log_size chunk_size offset log_data (some m :: evs)).log_data =
        (chunkLoop log_id log_size chunk_size offset log_data evs).log_data := by
  rw [chunkLoop_foreign_step log_id log_size chunk_size offset log_data m evs hm ho]
  exact ⟨rfl, chunkLoop_reqs_head log_id log_size chunk_size offset log_data evs ho,
    rfl, rfl⟩

/-- Witness for C10: a foreign-id response ahead of the real chunk makes
the same request go out twice. -/
theorem c10_foreign_id_duplicate_request_witness :
    (chunkLoop 1 2 90 0 [] (some ⟨9, 0, 1, [0]⟩ :: [some ⟨1, 0, 2, [7, 8]⟩])).reqs =
      (1, 0, 90) :: (chunkLoop 1 2 90 0 [] [some ⟨1, 0, 2, [7, 8]⟩]).reqs :=
  (c10_foreign_id_duplicate_request 1 2 90 0 [] ⟨9, 0, 1, [0]⟩
    [some ⟨1, 0, 2, [7, 8]⟩] (by decide) (by decide)).1

set_option maxRecDepth 4000 in
/-- Claim C7: a 200-byte log fetched with 90-byte chunks over a lossless
link takes exactly 3 request rounds, receives 90, 90 and 20 bytes, and
ends with a 200-byte buffer, persisted in one attempt. -/
theorem c7_three_rounds_200 :
    (download_log 5 200 1
        [some ⟨5, 0, 90, List.replicate 90 1⟩,
         some ⟨5, 90, 90, List.replicate 90 2⟩,
         some ⟨5, 180, 20, List.replicate 20 3⟩]).reqs =
        [(5, 0, 90), (5, 90, 90), (5, 180, 90)] ∧
      ((download_log 5 200 1
        [some ⟨5, 0, 90, List.replicate 90 1⟩,
         some ⟨5, 90, 90, List.replicate 90 2⟩,
         some ⟨5, 180, 20, List.replicate 20 3⟩]).file).map List.length =
        some 200 ∧
      (download_log 5 200 1
        [some ⟨5, 0, 90, List.replicate 90 1⟩,
         some ⟨5, 90, 90, List.replicate 90 2⟩,
         some ⟨5, 180, 20, List.replicate 20 3⟩]).attemptsUsed = 1 := by
  refine ⟨by decide, by decide, by decide⟩

/-- Fuel-indexed form of the chunk loop, over an unbounded response
stream (`s i` is what the `i`-th `recv_match` yields, `none` being a
timeout): the loop itself is unchanged — guard, send, receive, skip
foreign ids, append correct-id data — and `none` as a result means the
fuel ran out before the loop exited, i.e. the source loop is still
running after that many rounds.  The result is
`(offset, buffer, endedByTimeout)`. -/
def chunkLoopF (log_id log_size : Nat) (s : Nat → Option LogData) :
    Nat → Nat → Nat → List Nat → Option (Nat × List Nat × Bool)
  | 0, i, offset, buf =>
    if log_size ≤ offset then some (offset, buf, false)
    else
      match s i with
      | none => some (offset, buf, true)
      | some _ => none
  | fuel + 1, i, offset, buf =>
    if log_size ≤ offset then some (offset, buf, false)
    else
      match s i with
      | none => some (offset, buf, true)
      | some m =>
        if m.id ≠ log_id then chunkLoopF log_id log_size s fuel (i + 1) offset buf
        else chunkLoopF log_id log_size s fuel (i + 1) (offset + m.length)
          (buf ++ m.data.take m.length)

/-- The chunk loop terminates on stream `s` from receive index `i`,
offset `offset` and buffer `buf`: some finite number of rounds suffices
for it to exit. -/
def ChunkTerminates (log_id log_size : Nat) (s : Nat → Option LogData)
    (i offset : Nat) (buf : List Nat) : Prop :=
  ∃ fuel, (chunkLoopF log_id log_size s fuel i offset buf).isSome = true

/-- A stream that forever delivers responses for a foreign log id
(id 6, one byte each) while log 5 is being fetched. -/
def foreignFlood : Nat → Option LogData :=
  fun _ => some ⟨6, 0, 1, [0]⟩

/-- A stream that forever delivers correct-id responses of declared
length 0 (no progress) for log 5. -/
def zeroFlood : Nat → Option LogData :=
  fun _ => some ⟨5, 0, 0, []⟩

/-- A stream that forever delivers correct-id one-byte responses for
log 5. -/
def oneByteFlood : Nat → Option LogData :=
  fun _ => some ⟨5, 0, 1, [9]⟩

theorem foreignFlood_none (fuel : Nat) :
    ∀ i, chunkLoopF 5 1 foreignFlood fuel i 0 [] = none := by
  induction fuel with
  | zero => intro i; simp [chunkLoopF, foreignFlood]
  | succ n ih => intro i; simpa [chunkLoopF, foreignFlood] using ih (i + 1)

theorem zeroFlood_none (fuel : Nat) :
    ∀ i buf, chunkLoopF 5 1 zeroFlood fuel i 0 buf = none := by
  induction fuel with
  | zero => intro i buf; simp [chunkLoopF, zeroFlood]
  | succ n ih => intro i buf; simpa [chunkLoopF, zeroFlood] using ih (i + 1) buf

/-- Counterexample to claim C8: the stated precondition (every
correct-id response has declared length at least 1) does not suffice for
termination — an endless stream of foreign-id responses satisfies it
vacuously, yet every receive returns a message within its timeout
window, each one is discarded, and the loop never exits: no amount of
fuel makes the loop finish. -/
theorem c8_termination_counterexample :
    ¬ ChunkTerminates 5 1 foreignFlood 0 0 [] := by
  rintro ⟨fuel, h⟩
  rw [foreignFlood_none fuel 0] at h
  simp at h

/-- Claim C8 (amended): if additionally every response in the stream
carries the requested log id (no foreign-id flood), declared lengths of
at least 1 force the loop to exit within `log_size` rounds — by reaching
`offset ≥ log_size` or by a round timeout; and the loop indeed has no
guard against zero-length responses: a perpetual correct-id zero-length
stream keeps it running forever. -/
theorem c8_progress_termination :
    (∀ (s : Nat → Option LogData) (log_id log_size i offset : Nat) (buf : List Nat)
      (fuel : Nat),
      (∀ j m, s j = some m → m.id = log_id) →
      (∀ j m, s j = some m → 1 ≤ m.length) →
      log_size ≤ offset + fuel →
      (chunkLoopF log_id log_size s fuel i offset buf).isSome = true) ∧
    ¬ ChunkTerminates 5 1 zeroFlood 0 0 [] := by
  constructor
  · intro s log_id log_size i offset buf fuel
    induction fuel generalizing i offset buf with
    | zero =>
      intro _ _ hsz
      have : log_size ≤ offset := by omega
      simp [chunkLoopF, this]
    | succ n ih =>
      intro hid hlen hsz
      by_cases hoff : log_size ≤ offset
      · simp [chunkLoopF, hoff]
      · cases hs : s i with
        | none =>
          simp only [chunkLoopF, hs]
          split <;> simp
        | some m =>
          have h1 : m.id = log_id := hid i m hs
          have h2 : 1 ≤ m.length := hlen i m hs
          simp only [chunkLoopF, if_neg hoff, hs, h1, ne_eq, not_true_eq_false,
            ite_false, if_false]
          exact ih (i + 1) (offset + m.length) (buf ++ m.data.take m.length)
            hid hlen (by omega)
  · rintro ⟨fuel, h⟩
    rw [zeroFlood_none fuel 0 []] at h
    simp at h

/-- Witness for C8 (amended): a perpetual correct-id one-byte stream for
a 3-byte log finishes with fuel 3. -/
theorem c8_progress_termination_witness :
    (chunkLoopF 5 3 oneByteFlood 3 0 0 []).isSome = true :=
  c8_progress_termination.1 oneByteFlood 5 3 0 0 [] 3
    (by
      intro j m h
      simp only [oneByteFlood] at h
      injection h with h2
      subst h2
      rfl)
    (by
      intro j m h
      simp only [oneByteFlood] at h
      injection h with h2
      subst h2
      decide)
    (by decide)

